import Mathlib

/-!
# Lead-Sync: verification of the note-creation workflow and the dashboard handlers

This development embeds the Lead-Sync system shallowly in Lean.  The frontend
handlers (`handleNoteSuccess` in `page.tsx`, `handleSubmit` in `NoteModal.tsx`)
are translated directly from the TypeScript sources.  The backend
(`services/ai_service.py`, `storage/json_store.py`, `routes/notes.py`,
`services/leads_service.py`) is not present in the sources, so those components
are modelled from the specification, as flagged on each definition.

Strings are Lean `String`s; the character-level word-splitting used by the
summary fallback is modelled with `List.splitOnP Char.isWhitespace`,
which matches splitting a string on whitespace runs and discarding empties.
-/

/-- Words of a character list: split on whitespace and drop the empty chunks
(the behaviour of splitting a string on runs of whitespace). -/
def wordsOf (s : List Char) : List (List Char) :=
  (s.splitOnP Char.isWhitespace).filter (fun w => !w.isEmpty)

/-- Join a list of words with single spaces. -/
def unwords : List (List Char) → List Char
  | [] => []
  | [w] => w
  | w :: ws => w ++ ' ' :: unwords ws

/-- Keep only the first `n` words of a character list, joined by single spaces. -/
def truncateWords (s : List Char) (n : Nat) : List Char :=
  unwords ((wordsOf s).take n)

/-- Words of a string. -/
def words (s : String) : List String :=
  (wordsOf s.data).map String.mk

/-- Number of whitespace-separated words in a string. -/
def wordCount (s : String) : Nat :=
  (wordsOf s.data).length

/-- String-level word truncation: keep only the first `n` words. -/
def truncate_to_words (s : String) (n : Nat) : String :=
  String.mk (truncateWords s.data n)

/-- A string is blank when every character is whitespace — equivalently, when it
is empty after trimming whitespace (`not note.strip()` / `!note.trim()`). -/
def isBlank (s : String) : Bool :=
  s.data.all Char.isWhitespace

theorem unwords_nil : unwords [] = [] := rfl

theorem unwords_single (w : List Char) : unwords [w] = w := rfl

theorem unwords_cons_cons (w w' : List Char) (ws : List (List Char)) :
    unwords (w :: w' :: ws) = w ++ ' ' :: unwords (w' :: ws) := rfl

theorem mem_wordsOf_ne_nil {s : List Char} {w : List Char}
    (hw : w ∈ wordsOf s) : w ≠ [] := by
  have h := (List.mem_filter.mp hw).2
  cases w with
  | nil => simp [List.isEmpty] at h
  | cons c cs => simp

theorem mem_splitOnP_not_p {p : Char → Bool} :
    ∀ (s : List Char), ∀ w ∈ s.splitOnP p, ∀ c ∈ w, p c = false := by
  intro s
  induction s with
  | nil =>
    intro w hw c hc
    rw [List.splitOnP_nil] at hw
    simp only [List.mem_singleton] at hw
    subst hw
    exact absurd hc (List.not_mem_nil c)
  | cons a s ih =>
    intro w hw c hc
    rw [List.splitOnP_cons] at hw
    by_cases hpa : p a
    · rw [if_pos hpa] at hw
      rcases List.mem_cons.mp hw with h | h
      · subst h; exact absurd hc (List.not_mem_nil c)
      · exact ih w h c hc
    · rw [if_neg hpa] at hw
      obtain ⟨h, t, hht⟩ : ∃ h t, s.splitOnP p = h :: t := by
        cases hs : s.splitOnP p with
        | nil => exact absurd hs (List.splitOnP_ne_nil p s)
        | cons h t => exact ⟨h, t, rfl⟩
      rw [hht] at hw
      simp only [List.modifyHead] at hw
      rcases List.mem_cons.mp hw with h1 | h1
      · subst h1
        rcases List.mem_cons.mp hc with h2 | h2
        · subst h2; exact Bool.eq_false_iff.mpr hpa
        · exact ih h (hht ▸ List.mem_cons_self h t) c h2
      · exact ih w (hht ▸ List.mem_cons_of_mem h h1) c hc

theorem mem_wordsOf_no_whitespace {s : List Char} {w : List Char}
    (hw : w ∈ wordsOf s) : ∀ c ∈ w, c.isWhitespace = false :=
  mem_splitOnP_not_p s w (List.mem_filter.mp hw).1

/-- Splitting the space-joined words back recovers the words, provided each word
is non-empty and whitespace-free. -/
theorem wordsOf_unwords :
    ∀ (ws : List (List Char)),
      (∀ w ∈ ws, w ≠ [] ∧ ∀ c ∈ w, c.isWhitespace = false) →
      wordsOf (unwords ws) = ws := by
  intro ws
  induction ws with
  | nil => intro _; rfl
  | cons w ws ih =>
    intro h
    obtain ⟨hwne, hwfree⟩ := h w (List.mem_cons_self w ws)
    have hnotp : ∀ c ∈ w, ¬ Char.isWhitespace c = true := by
      intro c hc
      simp [hwfree c hc]
    cases ws with
    | nil =>
      rw [unwords_single, wordsOf, List.splitOnP_eq_single _ _ hnotp]
      cases w with
      | nil => exact absurd rfl hwne
      | cons c cs => simp [List.filter]
    | cons w' ws' =>
      rw [unwords_cons_cons, wordsOf,
        List.splitOnP_first _ _ hnotp ' ' (by decide) (unwords (w' :: ws'))]
      have htail : wordsOf (unwords (w' :: ws')) = w' :: ws' :=
        ih (fun u hu => h u (List.mem_cons_of_mem w hu))
      rw [wordsOf] at htail
      cases w with
      | nil => exact absurd rfl hwne
      | cons c cs =>
        have hstep : List.filter (fun w => !w.isEmpty)
            ((c :: cs) :: List.splitOnP Char.isWhitespace (unwords (w' :: ws')))
            = (c :: cs) :: List.filter (fun w => !w.isEmpty)
                (List.splitOnP Char.isWhitespace (unwords (w' :: ws'))) := rfl
        rw [hstep, htail]

/-- Truncating to `n` words keeps exactly the first `n` words. -/
theorem wordsOf_truncateWords (s : List Char) (n : Nat) :
    wordsOf (truncateWords s n) = (wordsOf s).take n := by
  rw [truncateWords]
  exact wordsOf_unwords ((wordsOf s).take n) (fun w hw =>
    ⟨mem_wordsOf_ne_nil (List.take_subset n (wordsOf s) hw),
     mem_wordsOf_no_whitespace (List.take_subset n (wordsOf s) hw)⟩)

theorem data_mk (l : List Char) : (String.mk l).data = l := rfl

/-- String-level truncation keeps exactly the first `n` words. -/
theorem words_truncate_to_words (s : String) (n : Nat) :
    words (truncate_to_words s n) = (words s).take n := by
  rw [words, truncate_to_words, data_mk, wordsOf_truncateWords, words, List.map_take]

/-- String-level truncation yields at most `n` words. -/
theorem wordCount_truncate_to_words_le (s : String) (n : Nat) :
    wordCount (truncate_to_words s n) ≤ n := by
  rw [wordCount, truncate_to_words, data_mk, wordsOf_truncateWords]
  exact List.length_take_le n (wordsOf s.data)

/-- A string that is not blank has at least one word. -/
theorem wordsOf_ne_nil_of_not_blank :
    ∀ (s : List Char), s.all Char.isWhitespace = false → wordsOf s ≠ [] := by
  intro s
  induction s with
  | nil => intro h; simp [List.all_nil] at h
  | cons a s ih =>
    intro h
    rw [List.all_cons, Bool.and_eq_false_iff] at h
    rw [wordsOf, List.splitOnP_cons]
    by_cases hpa : Char.isWhitespace a
    · rw [if_pos hpa]
      have hs : s.all Char.isWhitespace = false := by
        rcases h with h | h
        · rw [hpa] at h; exact absurd h (by simp)
        · exact h
      have hrec := ih hs
      rw [wordsOf] at hrec
      have hstep : List.filter (fun w => !w.isEmpty)
          (([] : List Char) :: s.splitOnP Char.isWhitespace)
          = List.filter (fun w => !w.isEmpty) (s.splitOnP Char.isWhitespace) := rfl
      rw [hstep]
      exact hrec
    · rw [if_neg hpa]
      obtain ⟨hd, tl, hht⟩ : ∃ hd tl, s.splitOnP Char.isWhitespace = hd :: tl := by
        cases hs : s.splitOnP Char.isWhitespace with
        | nil => exact absurd hs (List.splitOnP_ne_nil _ s)
        | cons hd tl => exact ⟨hd, tl, rfl⟩
      rw [hht]
      have hstep : List.filter (fun w => !w.isEmpty)
          (List.modifyHead (List.cons a) (hd :: tl))
          = (a :: hd) :: List.filter (fun w => !w.isEmpty) tl := rfl
      rw [hstep]
      simp

/-- Joining a non-empty list of non-empty words is non-empty. -/
theorem unwords_ne_nil (w : List Char) (ws : List (List Char)) (hw : w ≠ []) :
    unwords (w :: ws) ≠ [] := by
  cases ws with
  | nil => rw [unwords_single]; exact hw
  | cons w' ws' =>
    rw [unwords_cons_cons]
    cases w with
    | nil => exact absurd rfl hw
    | cons c cs => simp

/-- Non-blank strings have a non-empty word truncation. -/
theorem truncate_to_words_ne_empty (s : String) (n : Nat)
    (hn : 0 < n) (h : isBlank s = false) : truncate_to_words s n ≠ "" := by
  rw [truncate_to_words]
  intro hcontra
  have hdata : truncateWords s.data n = [] := congrArg String.data hcontra
  rw [truncateWords] at hdata
  obtain ⟨w, ws, hws⟩ : ∃ w ws, wordsOf s.data = w :: ws := by
    cases hw : wordsOf s.data with
    | nil => exact absurd hw (wordsOf_ne_nil_of_not_blank s.data h)
    | cons w ws => exact ⟨w, ws, rfl⟩
  have hwgood : w ≠ [] := mem_wordsOf_ne_nil (hws ▸ List.mem_cons_self w ws)
  obtain ⟨m, hm⟩ : ∃ m, n = m + 1 := ⟨n - 1, (Nat.succ_pred_eq_of_pos hn).symm⟩
  rw [hws, hm, List.take_succ_cons] at hdata
  exact unwords_ne_nil w (ws.take m) hwgood hdata

/-- Lookup in an association list keyed by strings. -/
def findEntry {α : Type} : List (String × α) → String → Option α
  | [], _ => none
  | (k', v) :: rest, k => if k' = k then some v else findEntry rest k

/-- Keyed insert-or-overwrite in an association list: an existing key is
updated in place, a new key is appended (the semantics of `store[email] = rec`
on a dict, and of `{...prev, [email]: v}` on a JS object). -/
def updateEntry {α : Type} : List (String × α) → String → α → List (String × α)
  | [], k, v => [(k, v)]
  | (k', v') :: rest, k, v =>
    if k' = k then (k', v) :: rest else (k', v') :: updateEntry rest k v

theorem findEntry_updateEntry_self {α : Type} :
    ∀ (m : List (String × α)) (k : String) (v : α),
      findEntry (updateEntry m k v) k = some v := by
  intro m k v
  induction m with
  | nil => simp [updateEntry, findEntry]
  | cons e rest ih =>
    obtain ⟨k', v'⟩ := e
    by_cases hk : k' = k
    · simp [updateEntry, findEntry, hk]
    · simp [updateEntry, findEntry, hk, ih]

theorem findEntry_updateEntry_ne {α : Type} :
    ∀ (m : List (String × α)) (k j : String) (v : α), j ≠ k →
      findEntry (updateEntry m k v) j = findEntry m j := by
  intro m k j v hjk
  have hkj : ¬ k = j := fun h => hjk h.symm
  induction m with
  | nil => simp [updateEntry, findEntry, hkj]
  | cons e rest ih =>
    obtain ⟨k', v'⟩ := e
    by_cases hk : k' = k
    · subst hk
      simp [updateEntry, findEntry, hkj]
    · simp [updateEntry, findEntry, hk, ih]

theorem updateEntry_updateEntry_self {α : Type} :
    ∀ (m : List (String × α)) (k : String) (v1 v2 : α),
      updateEntry (updateEntry m k v1) k v2 = updateEntry m k v2 := by
  intro m k v1 v2
  induction m with
  | nil => simp [updateEntry]
  | cons e rest ih =>
    obtain ⟨k', v'⟩ := e
    by_cases hk : k' = k
    · simp [updateEntry, hk]
    · simp [updateEntry, hk, ih]

/-- Note Record `{email, note, summary}`: the stored and returned shape of a
note (the backend counterpart of the frontend `NoteResponse`). -/
structure NoteRecord where
  email : String
  note : String
  summary : String
deriving DecidableEq, Repr

/-- Note Store state: the in-memory email-to-record mapping together with the
mapping currently held by the on-disk JSON file. -/
structure StoreState where
  mem : List (String × NoteRecord)
  disk : List (String × NoteRecord)
deriving DecidableEq, Repr

inductive StoreError
  | PersistenceError
deriving DecidableEq, Repr

namespace NoteStore

/-- Modelled from the spec: `backend/storage/json_store.py` is not in the
sources.  `put(email, note, summary)` overwrites or inserts the entry for
`email` and persists the full mapping to stable storage before returning the
stored record; if the write to stable storage fails (`writeOk = false`) the
operation fails with `PersistenceError` and the in-memory state is not left
ahead of the durable state. -/
def put (s : StoreState) (email note summary : String) (writeOk : Bool) :
    Except StoreError NoteRecord × StoreState :=
  let r : NoteRecord := ⟨email, note, summary⟩
  let m := updateEntry s.mem email r
  if writeOk then (.ok r, { mem := m, disk := m }) else (.error .PersistenceError, s)

/-- Modelled from the spec: the full mapping held by the store. -/
def get_all (s : StoreState) : List (String × NoteRecord) :=
  s.mem

end NoteStore

/-- Environment of one Summary Generator invocation: either the inference
service answers with raw model text, or the inference call fails (connection
refused, timeout, non-success or malformed response), or the generator itself
raises an unhandled error. -/
inductive AIEnv
  | responds (raw : String)
  | unavailable
  | crashes
deriving DecidableEq, Repr

/-- Modelled from the spec: the deterministic local fallback — truncation of
the original note text to at most 20 words. -/
def fallback_summary (text : String) : String :=
  truncate_to_words text 20

/-- Modelled from the spec: `backend/services/ai_service.py` is not in the
sources.  `summarize` makes at most one inference attempt; a successful
response is defensively truncated to 20 words, a failed call falls back to a
deterministic 20-word truncation of the note itself, and an unhandled error
inside the generator is surfaced as `Except.error`. -/
def summarize (env : AIEnv) (text : String) : Except Unit String :=
  match env with
  | .responds raw => .ok (truncate_to_words raw 20)
  | .unavailable => .ok (fallback_summary text)
  | .crashes => .error ()

inductive ServiceError
  | ValidationError
  | PersistenceError
deriving DecidableEq, Repr

/-- The summary text the Note Service ends up using: the output of the Summary Generator, or the fallback text when the generator fails outright. -/
def effectiveSummary (env : AIEnv) (note : String) : String :=
  match summarize env note with
  | .ok sm => sm
  | .error _ => fallback_summary note

/-- Modelled from the spec: `backend/routes/notes.py` / the Note Service is not
in the sources.  `create_note` rejects a note that is blank after trimming with
`ValidationError` (touching no state), otherwise obtains a summary (falling
back if the generator fails outright) and stores the record via
`NoteStore.put`. -/
def create_note (s : StoreState) (email note : String) (env : AIEnv)
    (writeOk : Bool) : Except ServiceError NoteRecord × StoreState :=
  if isBlank note then (.error .ValidationError, s)
  else
    match NoteStore.put s email note (effectiveSummary env note) writeOk with
    | (.ok r, s') => (.ok r, s')
    | (.error _, s') => (.error .PersistenceError, s')

/-- Lead interface from `frontend/src/types`: `{name, email, phone}`. -/
structure Lead where
  name : String
  email : String
  phone : String
deriving DecidableEq, Repr

/-- Serialization of a `Lead` as a JSON object: exactly the three fields. -/
def Lead.toObject (l : Lead) : List (String × String) :=
  [("name", l.name), ("email", l.email), ("phone", l.phone)]

/-- Field access on a JSON object modelled as an association list; a missing
field reads as the empty string. -/
def field (u : List (String × String)) (k : String) : String :=
  match findEntry u k with
  | some v => v
  | none => ""

/-- Modelled from the spec: `backend/services/leads_service.py` is not in the
sources.  Each upstream user object (an arbitrary JSON object) is projected
onto `{name, email, phone}`, discarding all other fields. -/
def projectLead (u : List (String × String)) : Lead :=
  ⟨field u "name", field u "email", field u "phone"⟩

/-- Modelled from the spec: `GET /leads` maps the projection over the full
upstream user list. -/
def fetchLeads (upstream : List (List (String × String))) :
    List (List (String × String)) :=
  upstream.map (fun u => (projectLead u).toObject)

/-- NoteResponse interface from `frontend/src/types`: the API response when a
note is created; `summary` is always present. -/
structure NoteResponse where
  email : String
  note : String
  summary : String
deriving DecidableEq, Repr

/-- The `{note, summary}` value kept per email in the dashboard `notes`
state (`page.tsx`). -/
structure ClientNote where
  note : String
  summary : String
deriving DecidableEq, Repr

/-- From `page.tsx` (`handleNoteSuccess`): after a successful note creation the
dashboard does `setNotes(prev => ({...prev, [noteData.email]: {note, summary}}))`,
keeping every existing entry and overwriting or adding the one for
`noteData.email`. -/
def handleNoteSuccess (prev : List (String × ClientNote))
    (noteData : NoteResponse) : List (String × ClientNote) :=
  updateEntry prev noteData.email ⟨noteData.note, noteData.summary⟩

/-- Local state of `NoteModal`: the note text, the loading flag and the error
message. -/
structure ModalState where
  note : String
  loading : Bool
  error : String
deriving DecidableEq, Repr

/-- Outcome of the `api.createNote` network call, had it been made. -/
inductive ApiResult
  | success (response : NoteResponse)
  | failure
deriving DecidableEq, Repr

/-- Observable effects of one `handleSubmit` run: whether `api.createNote` was
called, the argument `onSuccess` was invoked with (if any), and whether
`onClose` was invoked. -/
structure SubmitEffects where
  apiCalled : Bool
  onSuccessArg : Option NoteResponse
  onCloseCalled : Bool
deriving DecidableEq, Repr

/-- From `NoteModal.tsx` (`handleSubmit`): if `!note.trim()` the handler sets
the error message and returns before the network call; otherwise it calls
`api.createNote`, then on success invokes `onSuccess` and `onClose`, and on
failure sets the failure error message; `setLoading(false)` runs in the
`finally` block of the network branch. -/
def handleSubmit (st : ModalState) (api : ApiResult) :
    ModalState × SubmitEffects :=
  if isBlank st.note then
    ({ st with error := "Please enter a note" },
     { apiCalled := false, onSuccessArg := none, onCloseCalled := false })
  else
    match api with
    | .success r =>
      ({ st with loading := false, error := "" },
       { apiCalled := true, onSuccessArg := some r, onCloseCalled := true })
    | .failure =>
      ({ st with loading := false, error := "Failed to save note. Please try again." },
       { apiCalled := true, onSuccessArg := none, onCloseCalled := false })

instance {ε α : Type} [DecidableEq ε] [DecidableEq α] : DecidableEq (Except ε α) :=
  fun a b =>
    match a, b with
    | .ok x, .ok y =>
      if h : x = y then isTrue (by rw [h]) else isFalse (fun hc => h (Except.ok.inj hc))
    | .error e, .error f =>
      if h : e = f then isTrue (by rw [h]) else isFalse (fun hc => h (Except.error.inj hc))
    | .ok _, .error _ => isFalse (fun hc => Except.noConfusion hc)
    | .error _, .ok _ => isFalse (fun hc => Except.noConfusion hc)

/-- A successful `create_note` run in full: the returned record and the
resulting store state, with the updated mapping persisted. -/
theorem create_note_success (s : StoreState) (email note : String) (env : AIEnv)
    (h : isBlank note = false) :
    create_note s email note env true
      = (.ok ⟨email, note, effectiveSummary env note⟩,
         { mem := updateEntry s.mem email ⟨email, note, effectiveSummary env note⟩,
           disk := updateEntry s.mem email ⟨email, note, effectiveSummary env note⟩ }) := by
  simp [create_note, h, NoteStore.put]

/-- A blank note short-circuits `create_note` before any state is touched. -/
theorem create_note_blank (s : StoreState) (email note : String) (env : AIEnv)
    (writeOk : Bool) (h : isBlank note = true) :
    create_note s email note env writeOk = (.error .ValidationError, s) := by
  simp [create_note, h]

/-- The summary the service stores is a 20-word truncation in every
environment. -/
theorem wordCount_effectiveSummary_le (env : AIEnv) (note : String) :
    wordCount (effectiveSummary env note) ≤ 20 := by
  cases env with
  | responds raw =>
    show wordCount (truncate_to_words raw 20) ≤ 20
    exact wordCount_truncate_to_words_le raw 20
  | unavailable =>
    show wordCount (truncate_to_words note 20) ≤ 20
    exact wordCount_truncate_to_words_le note 20
  | crashes =>
    show wordCount (truncate_to_words note 20) ≤ 20
    exact wordCount_truncate_to_words_le note 20

/-- Claim C1: for every email and every note that is non-blank after trimming,
`create_note` succeeds and returns a Note Record even when the Summary
Generator fails with an unhandled error (and likewise when the inference
service is merely unavailable): the service proceeds with the deterministic,
non-empty fallback summary instead of aborting, so no note is lost because the
summarizer is unavailable. -/
theorem create_note_survives_summarizer_failure (s : StoreState)
    (email note : String) (h : isBlank note = false) :
    (create_note s email note .crashes true).1
      = .ok ⟨email, note, fallback_summary note⟩ ∧
    (create_note s email note .unavailable true).1
      = .ok ⟨email, note, fallback_summary note⟩ ∧
    fallback_summary note ≠ "" := by
  refine ⟨?_, ?_, ?_⟩
  · rw [create_note_success s email note .crashes h]; rfl
  · rw [create_note_success s email note .unavailable h]; rfl
  · show truncate_to_words note 20 ≠ ""
    exact truncate_to_words_ne_empty note 20 (by decide) h

theorem create_note_survives_summarizer_failure_witness :
    isBlank "Call back tomorrow" = false ∧
    ((create_note ⟨[], []⟩ "a@b.com" "Call back tomorrow" .crashes true).1
        = .ok ⟨"a@b.com", "Call back tomorrow", fallback_summary "Call back tomorrow"⟩ ∧
     (create_note ⟨[], []⟩ "a@b.com" "Call back tomorrow" .unavailable true).1
        = .ok ⟨"a@b.com", "Call back tomorrow", fallback_summary "Call back tomorrow"⟩ ∧
     fallback_summary "Call back tomorrow" ≠ "") :=
  ⟨by decide,
   create_note_survives_summarizer_failure ⟨[], []⟩ "a@b.com" "Call back tomorrow"
     (by decide)⟩

/-- Claim C2: for every email and every note that is non-blank after trimming,
`create_note` returns a record whose `summary` has at most 20 words, both when
the inference service responds (the response is truncated defensively) and
when it fails (fallback path). -/
theorem create_note_summary_at_most_20_words (s : StoreState)
    (email note : String) (env : AIEnv) (h : isBlank note = false) :
    ∃ r s', create_note s email note env true = (.ok r, s') ∧
      wordCount r.summary ≤ 20 :=
  ⟨⟨email, note, effectiveSummary env note⟩, _,
   create_note_success s email note env h,
   wordCount_effectiveSummary_le env note⟩

theorem create_note_summary_at_most_20_words_witness :
    isBlank "Customer wants a callback tomorrow" = false ∧
    (∃ r s', create_note ⟨[], []⟩ "a@b.com" "Customer wants a callback tomorrow"
        (.responds "The customer asked for a callback on Tuesday") true
        = (.ok r, s') ∧ wordCount r.summary ≤ 20) :=
  ⟨by decide,
   create_note_summary_at_most_20_words ⟨[], []⟩ "a@b.com"
     "Customer wants a callback tomorrow"
     (.responds "The customer asked for a callback on Tuesday") (by decide)⟩

/-- Claim C3: for every blank or whitespace-only note string and every email,
`create_note` fails with `ValidationError` and has no side effects: the store
state (in memory and on disk) afterwards is exactly the state before, with no
entry added or updated. -/
theorem create_note_blank_rejected (s : StoreState) (email note : String)
    (env : AIEnv) (writeOk : Bool) (h : isBlank note = true) :
    create_note s email note env writeOk = (.error .ValidationError, s) := by
  simp [create_note, h]

theorem create_note_blank_rejected_witness :
    isBlank "   " = true ∧
    create_note ⟨[("c@d.com", ⟨"c@d.com", "n", "s"⟩)], [("c@d.com", ⟨"c@d.com", "n", "s"⟩)]⟩
        "a@b.com" "   " .unavailable true
      = (.error .ValidationError,
         ⟨[("c@d.com", ⟨"c@d.com", "n", "s"⟩)], [("c@d.com", ⟨"c@d.com", "n", "s"⟩)]⟩) :=
  ⟨by decide,
   create_note_blank_rejected
     ⟨[("c@d.com", ⟨"c@d.com", "n", "s"⟩)], [("c@d.com", ⟨"c@d.com", "n", "s"⟩)]⟩
     "a@b.com" "   " .unavailable true (by decide)⟩

/-- Claim C4: for every email `e`, any two successful note creations for `e`
performed in order leave the store holding for `e` exactly the
`{note, summary}` pair of the second call — the first record is overwritten, not appended — and
the resulting store state is the same as if only the second creation had run
against the original state (last put for a key wins). -/
theorem create_note_second_write_wins (s : StoreState) (e n1 n2 : String)
    (env1 env2 : AIEnv) (r1 r2 : NoteRecord) (s1 s2 : StoreState)
    (hrun1 : create_note s e n1 env1 true = (.ok r1, s1))
    (hrun2 : create_note s1 e n2 env2 true = (.ok r2, s2)) :
    findEntry s2.mem e = some ⟨e, n2, effectiveSummary env2 n2⟩ ∧
    s2 = (create_note s e n2 env2 true).2 := by
  by_cases hb1 : isBlank n1 = true
  · rw [create_note_blank s e n1 env1 true hb1] at hrun1
    exact absurd (congrArg Prod.fst hrun1) (fun hc => Except.noConfusion hc)
  by_cases hb2 : isBlank n2 = true
  · rw [create_note_blank s1 e n2 env2 true hb2] at hrun2
    exact absurd (congrArg Prod.fst hrun2) (fun hc => Except.noConfusion hc)
  have hb1' : isBlank n1 = false := Bool.eq_false_iff.mpr hb1
  have hb2' : isBlank n2 = false := Bool.eq_false_iff.mpr hb2
  rw [create_note_success s e n1 env1 hb1'] at hrun1
  have hs1 : s1 = { mem := updateEntry s.mem e ⟨e, n1, effectiveSummary env1 n1⟩,
                    disk := updateEntry s.mem e ⟨e, n1, effectiveSummary env1 n1⟩ } :=
    (congrArg Prod.snd hrun1).symm
  rw [hs1, create_note_success _ e n2 env2 hb2'] at hrun2
  have hs2 : s2 = { mem := updateEntry (updateEntry s.mem e ⟨e, n1, effectiveSummary env1 n1⟩)
                          e ⟨e, n2, effectiveSummary env2 n2⟩,
                    disk := updateEntry (updateEntry s.mem e ⟨e, n1, effectiveSummary env1 n1⟩)
                          e ⟨e, n2, effectiveSummary env2 n2⟩ } :=
    (congrArg Prod.snd hrun2).symm
  rw [hs2, create_note_success s e n2 env2 hb2']
  constructor
  · exact findEntry_updateEntry_self _ _ _
  · rw [updateEntry_updateEntry_self]

theorem create_note_second_write_wins_witness :
    findEntry ((create_note (create_note ⟨[], []⟩ "a@b.com" "first call" .unavailable true).2
        "a@b.com" "second call" .crashes true).2).mem "a@b.com"
      = some ⟨"a@b.com", "second call", effectiveSummary .crashes "second call"⟩ ∧
    (create_note (create_note ⟨[], []⟩ "a@b.com" "first call" .unavailable true).2
        "a@b.com" "second call" .crashes true).2
      = (create_note ⟨[], []⟩ "a@b.com" "second call" .crashes true).2 :=
  create_note_second_write_wins ⟨[], []⟩ "a@b.com" "first call" "second call"
    .unavailable .crashes _ _ _ _ rfl rfl

/-- Claim C5: if the write to stable storage fails, `NoteStore.put` fails with
`PersistenceError` and the state is left exactly as it was, so the in-memory
mapping is never ahead of the durable on-disk mapping and success is never
reported unless the write completed. -/
theorem put_persistence_failure_state_unchanged (s : StoreState)
    (email note summary : String) :
    NoteStore.put s email note summary false
      = (.error .PersistenceError, s) := rfl

/-- Claim C6: after every successful `NoteStore.put` the in-memory mapping and
the on-disk mapping are identical — the full updated mapping is persisted to
stable storage before the call returns. -/
theorem put_success_mem_eq_disk (s : StoreState) (email note summary : String)
    (writeOk : Bool) (r : NoteRecord) (s' : StoreState)
    (h : NoteStore.put s email note summary writeOk = (.ok r, s')) :
    s'.mem = s'.disk ∧
    s'.mem = updateEntry s.mem email ⟨email, note, summary⟩ := by
  cases writeOk with
  | false =>
    rw [show NoteStore.put s email note summary false
        = (.error .PersistenceError, s) from rfl] at h
    exact absurd (congrArg Prod.fst h) (fun hc => Except.noConfusion hc)
  | true =>
    have hs : s' = { mem := updateEntry s.mem email ⟨email, note, summary⟩,
                     disk := updateEntry s.mem email ⟨email, note, summary⟩ } :=
      (congrArg Prod.snd h).symm
    rw [hs]
    exact ⟨rfl, rfl⟩

theorem put_success_mem_eq_disk_witness :
    ((NoteStore.put ⟨[], []⟩ "a@b.com" "met at expo" "met at expo" true).2).mem
      = ((NoteStore.put ⟨[], []⟩ "a@b.com" "met at expo" "met at expo" true).2).disk ∧
    ((NoteStore.put ⟨[], []⟩ "a@b.com" "met at expo" "met at expo" true).2).mem
      = updateEntry ([] : List (String × NoteRecord)) "a@b.com"
          ⟨"a@b.com", "met at expo", "met at expo"⟩ :=
  put_success_mem_eq_disk ⟨[], []⟩ "a@b.com" "met at expo" "met at expo" true _ _ rfl

/-- The note text of the fallback-truncation scenario in the spec. -/
def customerNote : String :=
  "Customer called about pricing, wants a callback tomorrow afternoon to discuss the enterprise plan options in detail"

/-- Claim C7, counterexample: the quoted scenario note has 17 words, not 21,
so its fallback summary is not a truncation to 20 words — it keeps all
17 words. -/
theorem customer_note_not_21_words :
    wordCount customerNote = 17 ∧ wordCount customerNote ≠ 21 ∧
    wordCount (fallback_summary customerNote) ≠ 20 := by decide

/-- Claim C7 (amended): when the inference call fails, `summarize` returns the
deterministic truncation of the original note text to at most 20 words ending
cleanly at word boundaries — its words are exactly the first 20 words of the
note, never a fragment of one; the quoted scenario note has only 17 words, so
its fallback summary keeps all of them and equals the note itself. -/
theorem summarize_fallback_word_truncation :
    (∀ note : String, summarize .unavailable note = .ok (fallback_summary note)) ∧
    (∀ note : String, words (fallback_summary note) = (words note).take 20) ∧
    (∀ note : String, wordCount (fallback_summary note) ≤ 20) ∧
    fallback_summary customerNote = customerNote := by
  refine ⟨fun note => rfl, fun note => ?_, fun note => ?_, by decide⟩
  · show words (truncate_to_words note 20) = (words note).take 20
    exact words_truncate_to_words note 20
  · show wordCount (truncate_to_words note 20) ≤ 20
    exact wordCount_truncate_to_words_le note 20

/-- Claim C8: every object returned by `GET /leads` contains exactly the three
fields `name`, `email`, `phone`, in this order: each upstream user object is
projected onto those fields and every other upstream field is discarded. -/
theorem leads_have_exactly_three_fields
    (upstream : List (List (String × String)))
    (l : List (String × String)) (hl : l ∈ fetchLeads upstream) :
    l.map Prod.fst = ["name", "email", "phone"] := by
  obtain ⟨u, _, hu⟩ := List.mem_map.mp hl
  rw [← hu]
  rfl

theorem leads_have_exactly_three_fields_witness :
    (projectLead [("id", "1"), ("name", "Leanne Graham"), ("username", "Bret"),
        ("email", "Sincere@april.biz"), ("phone", "1-770-736-8031"),
        ("website", "hildegard.org")]).toObject.map Prod.fst
      = ["name", "email", "phone"] :=
  leads_have_exactly_three_fields
    [[("id", "1"), ("name", "Leanne Graham"), ("username", "Bret"),
      ("email", "Sincere@april.biz"), ("phone", "1-770-736-8031"),
      ("website", "hildegard.org")]]
    _ (List.mem_cons_self _ _)

/-- Claim C9: `handleNoteSuccess`, applied after a successful note creation,
updates only the entry for the email of the response in the client-side
notes cache of the dashboard: for every other email the `{note, summary}` entry is unchanged. -/
theorem handleNoteSuccess_preserves_other_emails
    (prev : List (String × ClientNote)) (noteData : NoteResponse)
    (e : String) (h : e ≠ noteData.email) :
    findEntry (handleNoteSuccess prev noteData) e = findEntry prev e :=
  findEntry_updateEntry_ne prev noteData.email e
    ⟨noteData.note, noteData.summary⟩ h

theorem handleNoteSuccess_preserves_other_emails_witness :
    "x@y.com" ≠ "a@b.com" ∧
    findEntry (handleNoteSuccess [("x@y.com", ⟨"old note", "old summary"⟩)]
        ⟨"a@b.com", "called", "called"⟩) "x@y.com"
      = findEntry [("x@y.com", (⟨"old note", "old summary"⟩ : ClientNote))] "x@y.com" :=
  ⟨by decide,
   handleNoteSuccess_preserves_other_emails [("x@y.com", ⟨"old note", "old summary"⟩)]
     ⟨"a@b.com", "called", "called"⟩ "x@y.com" (by decide)⟩

/-- Claim C10: if the note text in the modal is empty or whitespace-only when
the form is submitted, `handleSubmit` returns before any network request:
`api.createNote` is never called, `onSuccess` and `onClose` are not invoked,
and the only state change is the local error message. -/
theorem handleSubmit_blank_note_no_api_call (st : ModalState) (api : ApiResult)
    (h : isBlank st.note = true) :
    handleSubmit st api
      = ({ st with error := "Please enter a note" },
         { apiCalled := false, onSuccessArg := none, onCloseCalled := false }) := by
  simp [handleSubmit, h]

theorem handleSubmit_blank_note_no_api_call_witness :
    isBlank ("   " : String) = true ∧
    handleSubmit ⟨"   ", false, ""⟩ .failure
      = (⟨"   ", false, "Please enter a note"⟩, ⟨false, none, false⟩) :=
  ⟨by decide,
   handleSubmit_blank_note_no_api_call ⟨"   ", false, ""⟩ .failure (by decide)⟩
